import Mathlib

/-!
Shallow embedding of the batch ingestion engine of the quicksearch python SDK
(`quicksearch/batch_processor.py`, `quicksearch/async_batch_processor.py`,
`quicksearch/sync_client.py`, `quicksearch/async_client.py`,
`quicksearch/models.py`), together with theorems settling the specification
claims about it.

Modelling conventions:
* events are opaque and represented by `Nat` identifiers;
* the concurrent executions (background flush thread / task, thread pool,
  semaphore) are modelled as sequential interleavings: each queue operation and
  each flush body is one atomic step, and a run is an arbitrary list of such
  steps.  Wall-clock waits (`time.sleep`, `asyncio.sleep`) are recorded as data
  (the list of requested delays) rather than performed;
* python floats (`retry_delay`, `flush_interval`) are modelled as rationals;
* the opaque event payload dictionary carried by `BatchIngestError.event_data`
  is not modelled (the engine never inspects it).
-/

namespace QuickSearch

/-- Mirrors `BatchIngestOptions` in `models.py` (the pydantic bounds are
validation-time concerns and are not baked into the type). -/
structure BatchIngestOptions where
  batch_size : Nat
  flush_interval : ℚ
  queue_size_limit : Nat
  max_concurrency : Nat
  retry_attempts : Nat
  retry_delay : ℚ
  enabled : Bool
deriving DecidableEq, Repr

/-- Outcome of one `submit_one` call (`ingest_event`): success, or an exception
carrying a message and an optional integer `status_code` attribute. -/
inductive SubmitOutcome where
  | success : SubmitOutcome
  | failure (msg : String) (status_code : Option Nat) : SubmitOutcome
deriving DecidableEq, Repr

/-- Mirrors `BatchIngestError` in `models.py` (the opaque `event_data` dict is
omitted; the engine never inspects it). -/
structure BatchIngestError where
  event_index : Int
  error_message : String
  status_code : Option Nat
  retried : Bool
deriving DecidableEq, Repr

/-- Mirrors `BatchIngestResult` in `models.py` (the wall-clock
`processing_time_ms` field is not modelled). -/
structure BatchIngestResult where
  success_count : Nat
  failure_count : Nat
  total_count : Nat
  errors : List BatchIngestError
deriving DecidableEq, Repr

/-- The `status_code and 400 <= status_code < 500 and status_code != 429` test
of `ingest_with_retry` (`sync_client.py` line 338, `async_client.py` line 304);
python truthiness makes a status code of `0` falsy. -/
def isPermanent : Option Nat → Bool
  | some c => (c != 0) && (400 ≤ c) && (c < 500) && (c != 429)
  | none => false

/-- Result of one `ingest_with_retry(event, index)` call: whether it returned
success, the `last_error` it returned otherwise, how many `ingest_event`
attempts it made, and the back-off delays it requested (in order). -/
structure RetryResult where
  success : Bool
  error : Option BatchIngestError
  attempts : Nat
  waits : List ℚ
deriving DecidableEq, Repr

/-- Body of the `for attempt in range(retry_attempts + 1)` loop of
`ingest_with_retry`.  `f k` is the outcome of the `ingest_event` call made at
0-based attempt `k`; `fuel` is the number of loop iterations still allowed
(the loop runs at most `retry_attempts + 1` iterations, so the `fuel = 0`
branch is unreachable from `ingestWithRetry`). -/
def retryGo (opts : BatchIngestOptions) (f : Nat → SubmitOutcome) (i : Nat) :
    Nat → Nat → RetryResult
  | 0, attempt => ⟨false, none, attempt, []⟩
  | fuel + 1, attempt =>
    match f attempt with
    | .success => ⟨true, none, attempt + 1, []⟩
    | .failure msg st =>
      if isPermanent st then
        ⟨false, some ⟨(i : Int), msg, st, false⟩, attempt + 1, []⟩
      else
        if attempt < opts.retry_attempts then
          let r := retryGo opts f i fuel (attempt + 1)
          ⟨r.success, r.error, r.attempts, opts.retry_delay * 2 ^ attempt :: r.waits⟩
        else
          ⟨false, some ⟨(i : Int), msg, st, decide (0 < attempt)⟩, attempt + 1, []⟩

/-- The inner `ingest_with_retry(event, index)` of `_ingest_events_with_result`
(`sync_client.py` lines 326–360, `async_client.py` lines 292–326). -/
def ingestWithRetry (opts : BatchIngestOptions) (f : Nat → SubmitOutcome)
    (i : Nat) : RetryResult :=
  retryGo opts f i (opts.retry_attempts + 1) 0

/-- Behaviour of one event of a batch handed to `_ingest_events_with_result`:
either its submissions behave as the attempt-indexed outcome function `f`,
or the per-event task itself raises an unexpected internal exception. -/
inductive EventSpec where
  | normal (f : Nat → SubmitOutcome) : EventSpec
  | crash (msg : String) : EventSpec

/-- What one per-event task yields to the result-collection loop: the pair
returned by `ingest_with_retry`, or the exception the task raised. -/
inductive TaskResult where
  | ok (r : RetryResult) : TaskResult
  | raised (msg : String) : TaskResult

/-- Runs the per-event task for the event at 0-based batch position `i`. -/
def taskResult (opts : BatchIngestOptions) (i : Nat) : EventSpec → TaskResult
  | .normal f => .ok (ingestWithRetry opts f i)
  | .crash msg => .raised msg

/-- Results of all per-event tasks of a batch, positions starting at `start`
(the result order is the `asyncio.gather` order, i.e. input order; the sync
client's `as_completed` may permute it, which no counted claim depends on). -/
def taskResults (opts : BatchIngestOptions) :
    List EventSpec → Nat → List TaskResult
  | [], _ => []
  | e :: rest, start => taskResult opts start e :: taskResults opts rest (start + 1)

/-- The `if success: success_count += 1` test of the collection loop. -/
def taskSuccess : TaskResult → Bool
  | .ok r => r.success
  | .raised _ => false

/-- The error (if any) the collection loop appends for one task: a raised task
becomes a record with `event_index = -1`; an unsuccessful task contributes the
`last_error` it returned (`elif error: errors.append(error)`). -/
def taskError : TaskResult → Option BatchIngestError
  | .ok r => if r.success then none else r.error
  | .raised msg => some ⟨-1, msg, none, false⟩

/-- Errors collected from a list of task results, in order. -/
def collectErrors (rs : List TaskResult) : List BatchIngestError :=
  rs.filterMap taskError

/-- `_ingest_events_with_result` (`sync_client.py` lines 316–393,
`async_client.py` lines 282–365): run every per-event task, collect successes
and errors, and assemble the `BatchIngestResult`. -/
def ingestEventsWithResult (opts : BatchIngestOptions)
    (events : List EventSpec) : BatchIngestResult :=
  let rs := taskResults opts events 0
  let errors := collectErrors rs
  { success_count := rs.countP (fun r => taskSuccess r)
    failure_count := errors.length
    total_count := events.length
    errors := errors }

/-- Errors the batching layer signals synchronously to the enqueuing caller. -/
inductive QSError where
  | queueFull : QSError
deriving DecidableEq, Repr

/-- State of a `SyncBatchProcessor` (`batch_processor.py`): the bounded
`queue.Queue` (FIFO, front = next `get_nowait`), the `_pending_count` counter,
the `_flush_event` flag, the `_stop_event` flag, and — for specification
purposes — the list of batches passed so far to `ingest_func`. -/
structure SyncState where
  queue : List Nat
  pending : Nat
  flushSignaled : Bool
  stopped : Bool
  delivered : List (List Nat)
deriving DecidableEq, Repr

/-- Freshly constructed `SyncBatchProcessor`. -/
def syncInit : SyncState :=
  ⟨[], 0, false, false, []⟩

/-- `SyncBatchProcessor.add_event` (lines 75–98).  With no concurrent consumer
a `put` on a full queue times out and the method returns `False`; on success
`_pending_count` is incremented and, if it has reached `batch_size`, the
`_flush_event` trigger is set. -/
def syncAdd (opts : BatchIngestOptions) (e : Nat) (s : SyncState) :
    Bool × SyncState :=
  if opts.queue_size_limit ≤ s.queue.length then
    (false, s)
  else
    let s1 : SyncState := { s with queue := s.queue ++ [e], pending := s.pending + 1 }
    if opts.batch_size ≤ s1.pending then
      (true, { s1 with flushSignaled := true })
    else
      (true, s1)

/-- The `while len(batch) < batch_size and not queue.empty()` collection loop
of `_flush_batch` (lines 124–129): returns the collected batch and the queue
contents left behind. -/
def collectBatch : Nat → List Nat → List Nat × List Nat
  | 0, q => ([], q)
  | _ + 1, [] => ([], [])
  | n + 1, e :: rest =>
    let (b, q) := collectBatch n rest
    (e :: b, q)

/-- `SyncBatchProcessor._flush_batch` (lines 116–138): early-return on an empty
queue, otherwise collect up to `batch_size` events under the lock, decrement
`_pending_count`, and pass the batch to `ingest_func` if nonempty (exceptions
from `ingest_func` are swallowed: the batch was still handed over). -/
def syncFlushBatch (opts : BatchIngestOptions) (s : SyncState) : SyncState :=
  if s.queue.isEmpty then s
  else
    let p := collectBatch opts.batch_size s.queue
    let s1 : SyncState := { s with queue := p.2, pending := s.pending - p.1.length }
    if p.1.isEmpty then s1
    else { s1 with delivered := s1.delivered ++ [p.1] }

/-- `SyncBatchProcessor._flush_remaining` (lines 140–158): drain the whole
queue under the lock, zero `_pending_count`, and pass the batch to
`ingest_func` if nonempty. -/
def syncFlushRemaining (s : SyncState) : SyncState :=
  let batch := s.queue
  let s1 : SyncState := { s with queue := [], pending := 0 }
  if batch.isEmpty then s1
  else { s1 with delivered := s1.delivered ++ [batch] }

/-- `SyncBatchProcessor.stop` (lines 59–73): set `_stop_event` and
`_flush_event` (the woken flush loop clears the flag and breaks without
flushing), join the thread, then run `_flush_remaining`. -/
def syncStop (s : SyncState) : SyncState :=
  syncFlushRemaining { s with stopped := true, flushSignaled := false }

/-- `QuickSearchClient.ingest_event_batched` (`sync_client.py` lines 278–305)
with batching enabled: raise `QueueFullError` exactly when `add_event`
returns `False`. -/
def ingestEventBatched (opts : BatchIngestOptions) (e : Nat) (s : SyncState) :
    Except QSError SyncState :=
  let r := syncAdd opts e s
  if r.1 then .ok r.2 else .error .queueFull

/-- One atomic step of a `SyncBatchProcessor` interleaving: a producer calling
`add_event`, or the flush thread running `_flush_batch` (which is what the
timer, a size trigger and `force_flush` all amount to). -/
inductive SyncOp where
  | add (e : Nat) : SyncOp
  | flush : SyncOp
deriving DecidableEq, Repr

/-- Run a sequence of interleaved steps; returns the final state and the list
of events whose `add_event` returned `True` (accepted events), in order. -/
def syncRun (opts : BatchIngestOptions) :
    List SyncOp → SyncState → SyncState × List Nat
  | [], s => (s, [])
  | .add e :: ops, s =>
    let r := syncAdd opts e s
    let rest := syncRun opts ops r.2
    (rest.1, (if r.1 then [e] else []) ++ rest.2)
  | .flush :: ops, s => syncRun opts ops (syncFlushBatch opts s)

/-- State of an `AsyncBatchProcessor` (`async_batch_processor.py`): the
`_buffer` list, the `_stop_event` flag, and the list of batches passed so far
to `ingest_func`. -/
structure AsyncState where
  buffer : List Nat
  stopped : Bool
  delivered : List (List Nat)
deriving DecidableEq, Repr

/-- Freshly constructed `AsyncBatchProcessor`. -/
def asyncInit : AsyncState :=
  ⟨[], false, []⟩

/-- `AsyncBatchProcessor.add_event` (lines 61–77): raise `QueueFullError` if
the buffer already holds `queue_size_limit` events, otherwise append.  No
flush trigger of any kind is signalled. -/
def asyncAdd (opts : BatchIngestOptions) (e : Nat) (s : AsyncState) :
    Except QSError AsyncState :=
  if opts.queue_size_limit ≤ s.buffer.length then
    .error .queueFull
  else
    .ok { s with buffer := s.buffer ++ [e] }

/-- `AsyncBatchProcessor._flush_batch` (lines 100–115): under the lock,
early-return on an empty buffer, otherwise swap out the whole buffer and pass
it to `ingest_func` (exceptions swallowed). -/
def asyncFlushBatch (s : AsyncState) : AsyncState :=
  if s.buffer.isEmpty then s
  else { s with buffer := [], delivered := s.delivered ++ [s.buffer] }

/-- `AsyncBatchProcessor._flush_remaining` (lines 117–127): swap out the whole
buffer under the lock and pass it to `ingest_func` if nonempty. -/
def asyncFlushRemaining (s : AsyncState) : AsyncState :=
  let batch := s.buffer
  let s1 : AsyncState := { s with buffer := [] }
  if batch.isEmpty then s1
  else { s1 with delivered := s1.delivered ++ [batch] }

/-- `AsyncBatchProcessor.stop` (lines 47–59): set `_stop_event` (the flush
loop wakes and breaks without flushing), await the task, then run
`_flush_remaining`. -/
def asyncStop (s : AsyncState) : AsyncState :=
  asyncFlushRemaining { s with stopped := true }

/-- One atomic step of an `AsyncBatchProcessor` interleaving: a producer
calling `add_event`, or the flush task running `_flush_batch` (timer fire or
`force_flush`). -/
inductive AsyncOp where
  | add (e : Nat) : AsyncOp
  | flush : AsyncOp
deriving DecidableEq, Repr

/-- Run a sequence of interleaved steps; a rejected `add_event` raises
`QueueFullError` to its caller (who may continue) and leaves the state
unchanged.  Returns the final state and the accepted events, in order. -/
def asyncRun (opts : BatchIngestOptions) :
    List AsyncOp → AsyncState → AsyncState × List Nat
  | [], s => (s, [])
  | .add e :: ops, s =>
    match asyncAdd opts e s with
    | .ok s1 =>
      let rest := asyncRun opts ops s1
      (rest.1, e :: rest.2)
    | .error _ => asyncRun opts ops s
  | .flush :: ops, s => asyncRun opts ops (asyncFlushBatch s)

/-! Helper lemmas about the two batch processors. -/

theorem collectBatch_eq (n : Nat) (q : List Nat) :
    collectBatch n q = (q.take n, q.drop n) := by
  induction n generalizing q with
  | zero => simp [collectBatch]
  | succ n ih =>
    cases q with
    | nil => simp [collectBatch]
    | cons e rest => simp [collectBatch, ih]

theorem syncFlushBatch_join (opts : BatchIngestOptions) (s : SyncState) :
    (syncFlushBatch opts s).delivered.flatten ++ (syncFlushBatch opts s).queue
      = s.delivered.flatten ++ s.queue := by
  unfold syncFlushBatch
  rcases hq : s.queue with _ | ⟨e, rest⟩
  · simp [hq]
  · rcases hb : opts.batch_size with _ | b
    · simp [hq, hb, collectBatch_eq]
    · simp [hq, hb, collectBatch_eq]

theorem syncFlushBatch_delivered_sub (opts : BatchIngestOptions) (s : SyncState) :
    (syncFlushBatch opts s).delivered = s.delivered
  ∨ ∃ b, (syncFlushBatch opts s).delivered = s.delivered ++ [b] ∧ b ≠ [] := by
  unfold syncFlushBatch
  rcases hq : s.queue with _ | ⟨e, rest⟩
  · simp
  · rcases hb : opts.batch_size with _ | b
    · simp [collectBatch_eq]
    · right
      refine ⟨e :: rest.take b, by simp [collectBatch_eq], by simp⟩

theorem syncStop_queue (s : SyncState) : (syncStop s).queue = [] := by
  unfold syncStop syncFlushRemaining
  rcases hq : s.queue with _ | ⟨e, rest⟩ <;> simp [hq]

theorem syncStop_join (s : SyncState) :
    (syncStop s).delivered.flatten = s.delivered.flatten ++ s.queue := by
  unfold syncStop syncFlushRemaining
  rcases hq : s.queue with _ | ⟨e, rest⟩ <;> simp [hq]

theorem syncRun_join (opts : BatchIngestOptions) (ops : List SyncOp) :
    ∀ s : SyncState,
      (syncRun opts ops s).1.delivered.flatten ++ (syncRun opts ops s).1.queue
        = s.delivered.flatten ++ (s.queue ++ (syncRun opts ops s).2) := by
  induction ops with
  | nil => intro s; simp [syncRun]
  | cons op ops ih =>
    intro s
    cases op with
    | add e =>
      by_cases h : opts.queue_size_limit ≤ s.queue.length
      · simp [syncRun, syncAdd, h, ih]
      · by_cases h2 : opts.batch_size ≤ s.pending + 1
        · simp [syncRun, syncAdd, h, h2, ih]
        · simp [syncRun, syncAdd, h, h2, ih]
    | flush =>
      have hf := syncFlushBatch_join opts s
      have := ih (syncFlushBatch opts s)
      simp only [syncRun, this]
      rw [← List.append_assoc, hf, List.append_assoc]

theorem asyncFlushBatch_join (s : AsyncState) :
    (asyncFlushBatch s).delivered.flatten ++ (asyncFlushBatch s).buffer
      = s.delivered.flatten ++ s.buffer := by
  unfold asyncFlushBatch
  rcases hq : s.buffer with _ | ⟨e, rest⟩ <;> simp [hq]

theorem asyncStop_buffer (s : AsyncState) : (asyncStop s).buffer = [] := by
  unfold asyncStop asyncFlushRemaining
  rcases hq : s.buffer with _ | ⟨e, rest⟩ <;> simp [hq]

theorem asyncStop_join (s : AsyncState) :
    (asyncStop s).delivered.flatten = s.delivered.flatten ++ s.buffer := by
  unfold asyncStop asyncFlushRemaining
  rcases hq : s.buffer with _ | ⟨e, rest⟩ <;> simp [hq]

theorem asyncRun_join (opts : BatchIngestOptions) (ops : List AsyncOp) :
    ∀ s : AsyncState,
      (asyncRun opts ops s).1.delivered.flatten ++ (asyncRun opts ops s).1.buffer
        = s.delivered.flatten ++ (s.buffer ++ (asyncRun opts ops s).2) := by
  induction ops with
  | nil => intro s; simp [asyncRun]
  | cons op ops ih =>
    intro s
    cases op with
    | add e =>
      by_cases h : opts.queue_size_limit ≤ s.buffer.length
      · simp [asyncRun, asyncAdd, h, ih]
      · simp [asyncRun, asyncAdd, h, ih]
    | flush =>
      have hf := asyncFlushBatch_join s
      have := ih (asyncFlushBatch s)
      simp only [asyncRun, this]
      rw [← List.append_assoc, hf, List.append_assoc]

theorem syncRun_adds (opts : BatchIngestOptions) (es : List Nat) :
    ∀ s : SyncState, s.queue.length + es.length ≤ opts.queue_size_limit →
      (syncRun opts (es.map SyncOp.add) s).2 = es
      ∧ (syncRun opts (es.map SyncOp.add) s).1.queue = s.queue ++ es := by
  induction es with
  | nil => intro s _; simp [syncRun]
  | cons e es ih =>
    intro s h
    simp only [List.length_cons] at h
    have hfull : ¬ opts.queue_size_limit ≤ s.queue.length := by omega
    by_cases h2 : opts.batch_size ≤ s.pending + 1
    · have ih2 := ih ⟨s.queue ++ [e], s.pending + 1, true, s.stopped, s.delivered⟩
        (by simp; omega)
      simp only [List.map_cons, syncRun, syncAdd, if_neg hfull, if_pos h2] at ih2 ⊢
      simp_all
    · have ih2 := ih ⟨s.queue ++ [e], s.pending + 1, s.flushSignaled, s.stopped,
        s.delivered⟩ (by simp; omega)
      simp only [List.map_cons, syncRun, syncAdd, if_neg hfull, if_neg h2] at ih2 ⊢
      simp_all

theorem asyncRun_adds (opts : BatchIngestOptions) (es : List Nat) :
    ∀ s : AsyncState, s.buffer.length + es.length ≤ opts.queue_size_limit →
      (asyncRun opts (es.map AsyncOp.add) s).2 = es
      ∧ (asyncRun opts (es.map AsyncOp.add) s).1.buffer = s.buffer ++ es := by
  induction es with
  | nil => intro s _; simp [asyncRun]
  | cons e es ih =>
    intro s h
    simp only [List.length_cons] at h
    have hfull : ¬ opts.queue_size_limit ≤ s.buffer.length := by omega
    have ih2 := ih { s with buffer := s.buffer ++ [e] } (by simp; omega)
    simp only [List.map_cons, asyncRun, asyncAdd, if_neg hfull] at ih2 ⊢
    simp [ih2.1, ih2.2]

/-- Concrete options used by counterexamples and witnesses: `batch_size = 1`,
`queue_size_limit = 100`, the other fields at their `BatchIngestOptions`
defaults (`flush_interval = 2.0`, `max_concurrency = 5`, `retry_attempts = 3`,
`retry_delay = 1.0`), batching enabled. -/
def optsA : BatchIngestOptions :=
  ⟨1, 2, 100, 5, 3, 1, true⟩

/-- C1: in both batch processors, every event accepted by `add_event` is
passed to `ingest_func` exactly once across all flushes and the final drain of
`stop()` — for every interleaving, the concatenation of all delivered batches
after `stop()` is exactly the list of accepted events — and a rejected
`add_event` signals queue-fullness synchronously (`False` from the sync
`add_event`, surfaced as `QueueFullError` by `ingest_event_batched`;
`QueueFullError` raised by the async `add_event`) while leaving the state
unchanged. -/
theorem exactly_once_delivery (opts : BatchIngestOptions) :
    (∀ ops : List SyncOp,
      (syncStop (syncRun opts ops syncInit).1).delivered.flatten
        = (syncRun opts ops syncInit).2)
  ∧ (∀ ops : List AsyncOp,
      (asyncStop (asyncRun opts ops asyncInit).1).delivered.flatten
        = (asyncRun opts ops asyncInit).2)
  ∧ (∀ (s : SyncState) (e : Nat),
      (syncAdd opts e s).1 = decide (s.queue.length < opts.queue_size_limit)
      ∧ ((syncAdd opts e s).1 = false → (syncAdd opts e s).2 = s)
      ∧ (ingestEventBatched opts e s = .error .queueFull
          ↔ (syncAdd opts e s).1 = false))
  ∧ (∀ (s : AsyncState) (e : Nat),
      (asyncAdd opts e s = .error .queueFull
        ↔ opts.queue_size_limit ≤ s.buffer.length)
      ∧ (asyncAdd opts e s = .error .queueFull
        ∨ asyncAdd opts e s = .ok { s with buffer := s.buffer ++ [e] })) := by
  refine ⟨fun ops => ?_, fun ops => ?_, fun s e => ?_, fun s e => ?_⟩
  · have h := syncRun_join opts ops syncInit
    have h2 := syncStop_join (syncRun opts ops syncInit).1
    rw [h2, h]
    simp [syncInit]
  · have h := asyncRun_join opts ops asyncInit
    have h2 := asyncStop_join (asyncRun opts ops asyncInit).1
    rw [h2, h]
    simp [asyncInit]
  · by_cases h : opts.queue_size_limit ≤ s.queue.length
    · refine ⟨by simp [syncAdd, h], by simp [syncAdd, h], ?_⟩
      simp [ingestEventBatched, syncAdd, h]
    · by_cases h2 : opts.batch_size ≤ s.pending + 1 <;>
        refine ⟨by simp [syncAdd, h, h2]; omega,
          by simp [syncAdd, h, h2], ?_⟩ <;>
        simp [ingestEventBatched, syncAdd, h, h2]
  · by_cases h : opts.queue_size_limit ≤ s.buffer.length <;>
      constructor <;> simp [asyncAdd, h]

/-- C1 witness: a concrete interleaving on each processor, evaluated. -/
theorem exactly_once_delivery_witness :
    (syncStop (syncRun optsA [SyncOp.add 5, SyncOp.flush, SyncOp.add 6]
        syncInit).1).delivered.flatten = [5, 6]
  ∧ (asyncStop (asyncRun optsA [AsyncOp.add 7, AsyncOp.flush, AsyncOp.add 8]
        asyncInit).1).delivered.flatten = [7, 8] := by
  constructor
  · rw [(exactly_once_delivery optsA).1 [SyncOp.add 5, SyncOp.flush, SyncOp.add 6]]
    decide
  · rw [(exactly_once_delivery optsA).2.1
      [AsyncOp.add 7, AsyncOp.flush, AsyncOp.add 8]]
    decide

/-- C2 (code bug): with `batch_size = 1`, an `add_event` that brings the
buffer up to `batch_size` signals the flush trigger in the sync processor, but
in the async processor it merely appends — the resulting state records no
flush and no delivery, and `AsyncBatchProcessor` has no size trigger at all,
contradicting the "Size-based flushing" feature its own docstring advertises. -/
theorem async_size_trigger_missing :
    asyncAdd optsA 7 asyncInit = Except.ok ⟨[7], false, []⟩
  ∧ asyncFlushRemaining (⟨[7], false, []⟩ : AsyncState) = ⟨[], false, [[7]]⟩
  ∧ (syncAdd optsA 7 syncInit).1 = true
  ∧ (syncAdd optsA 7 syncInit).2.flushSignaled = true := by
  exact ⟨rfl, rfl, rfl, rfl⟩

/-- C3 counterexample: with `batch_size = 1` and two queued events, one sync
flush trigger hands `ingest_func` only the first event and leaves the second
queued — the dispatched batch does not contain all events queued at swap
time. -/
theorem sync_flush_partial_cex :
    syncFlushBatch optsA ⟨[3, 4], 2, true, false, []⟩ = ⟨[4], 1, true, false, [[3]]⟩
  ∧ ([4] : List Nat) ≠ [] := by
  refine ⟨?_, ?_⟩ <;> decide

/-- C3 amended: the async `_flush_batch` atomically swaps out the entire
buffer; the sync `_flush_batch` removes and dispatches only the first
`min(batch_size, queue length)` events, leaving the remainder queued; only
`_flush_remaining` (the final drain) takes the whole queue. -/
theorem flush_swap_amended (opts : BatchIngestOptions) (sa : AsyncState)
    (ss : SyncState) (ha : sa.buffer ≠ []) (hs : ss.queue ≠ [])
    (hb : 1 ≤ opts.batch_size) :
    asyncFlushBatch sa
      = { sa with buffer := [], delivered := sa.delivered ++ [sa.buffer] }
  ∧ syncFlushBatch opts ss
      = { ss with queue := ss.queue.drop opts.batch_size,
                  pending := ss.pending - (ss.queue.take opts.batch_size).length,
                  delivered := ss.delivered ++ [ss.queue.take opts.batch_size] }
  ∧ syncFlushRemaining ss
      = { ss with queue := [], pending := 0,
                  delivered := ss.delivered ++ [ss.queue] } := by
  refine ⟨?_, ?_, ?_⟩
  · unfold asyncFlushBatch
    rcases hq : sa.buffer with _ | ⟨e, rest⟩
    · exact absurd hq ha
    · simp [hq]
  · unfold syncFlushBatch
    rcases hq : ss.queue with _ | ⟨e, rest⟩
    · exact absurd hq hs
    · rcases hbs : opts.batch_size with _ | b
      · omega
      · simp [hq, hbs, collectBatch_eq]
  · unfold syncFlushRemaining
    rcases hq : ss.queue with _ | ⟨e, rest⟩
    · exact absurd hq hs
    · simp [hq]

/-- C3 amended witness: concrete nonempty buffers with `batch_size = 1`. -/
theorem flush_swap_amended_witness :
    asyncFlushBatch (⟨[1, 2], false, []⟩ : AsyncState) = ⟨[], false, [[1, 2]]⟩
  ∧ syncFlushBatch optsA (⟨[3, 4], 2, false, false, []⟩ : SyncState)
      = ⟨[4], 1, false, false, [[3]]⟩
  ∧ syncFlushRemaining (⟨[3, 4], 2, false, false, []⟩ : SyncState)
      = ⟨[], 0, false, false, [[3, 4]]⟩ := by
  have h := flush_swap_amended optsA ⟨[1, 2], false, []⟩ ⟨[3, 4], 2, false, false, []⟩
    (by decide) (by decide) (by decide)
  exact ⟨h.1, h.2.1, h.2.2⟩

/-- C6: with no consumer step interleaved, all `queue_capacity` enqueues into
a fresh processor are accepted, and the `(queue_capacity+1)`-th fails
synchronously: the sync `add_event` returns `False` leaving the state
unchanged (surfaced as `QueueFullError` by `ingest_event_batched`), and the
async `add_event` raises `QueueFullError` at once. -/
theorem backpressure_capacity (opts : BatchIngestOptions) (x : Nat) :
    (syncRun opts ((List.range opts.queue_size_limit).map SyncOp.add) syncInit).2
        = List.range opts.queue_size_limit
  ∧ (syncRun opts ((List.range opts.queue_size_limit).map SyncOp.add)
        syncInit).1.queue = List.range opts.queue_size_limit
  ∧ syncAdd opts x (syncRun opts ((List.range opts.queue_size_limit).map
        SyncOp.add) syncInit).1
      = (false, (syncRun opts ((List.range opts.queue_size_limit).map
          SyncOp.add) syncInit).1)
  ∧ ingestEventBatched opts x (syncRun opts ((List.range
        opts.queue_size_limit).map SyncOp.add) syncInit).1
      = .error .queueFull
  ∧ (asyncRun opts ((List.range opts.queue_size_limit).map AsyncOp.add)
        asyncInit).2 = List.range opts.queue_size_limit
  ∧ (asyncRun opts ((List.range opts.queue_size_limit).map AsyncOp.add)
        asyncInit).1.buffer = List.range opts.queue_size_limit
  ∧ asyncAdd opts x (asyncRun opts ((List.range opts.queue_size_limit).map
        AsyncOp.add) asyncInit).1
      = .error .queueFull := by
  have hs := syncRun_adds opts (List.range opts.queue_size_limit) syncInit
    (by simp [syncInit])
  have ha := asyncRun_adds opts (List.range opts.queue_size_limit) asyncInit
    (by simp [asyncInit])
  have hsq : (syncRun opts ((List.range opts.queue_size_limit).map SyncOp.add)
      syncInit).1.queue = List.range opts.queue_size_limit := by
    rw [hs.2]; simp [syncInit]
  have haq : (asyncRun opts ((List.range opts.queue_size_limit).map
      AsyncOp.add) asyncInit).1.buffer = List.range opts.queue_size_limit := by
    rw [ha.2]; simp [asyncInit]
  have hfullS : opts.queue_size_limit
      ≤ (syncRun opts ((List.range opts.queue_size_limit).map SyncOp.add)
          syncInit).1.queue.length := by
    rw [hsq]; simp
  have hfullA : opts.queue_size_limit
      ≤ (asyncRun opts ((List.range opts.queue_size_limit).map AsyncOp.add)
          asyncInit).1.buffer.length := by
    rw [haq]; simp
  refine ⟨hs.1, hsq, ?_, ?_, ha.1, haq, ?_⟩
  · simp [syncAdd, hfullS]
  · simp [ingestEventBatched, syncAdd, hfullS]
  · simp [asyncAdd, hfullA]

/-- C7: `stop()` is idempotent for event delivery: the first `stop()` drains
the whole queue (the delivered flatten grows by exactly the queued events,
and the queue is left empty), and a second `stop()` is a no-op on the entire
state — it delivers nothing and loses nothing. -/
theorem shutdown_idempotent (ss : SyncState) (sa : AsyncState) :
    (syncStop ss).queue = []
  ∧ (syncStop ss).delivered.flatten = ss.delivered.flatten ++ ss.queue
  ∧ syncStop (syncStop ss) = syncStop ss
  ∧ (asyncStop sa).buffer = []
  ∧ (asyncStop sa).delivered.flatten = sa.delivered.flatten ++ sa.buffer
  ∧ asyncStop (asyncStop sa) = asyncStop sa := by
  refine ⟨syncStop_queue ss, syncStop_join ss, ?_, asyncStop_buffer sa,
    asyncStop_join sa, ?_⟩
  · unfold syncStop syncFlushRemaining
    rcases hq : ss.queue with _ | ⟨e, rest⟩ <;> simp [hq]
  · unfold asyncStop asyncFlushRemaining
    rcases hq : sa.buffer with _ | ⟨e, rest⟩ <;> simp [hq]

/-- C10: a flush that finds the queue/buffer empty makes no `ingest_func`
call and leaves the state unchanged, in both processors (for the sync
`_flush_remaining`, `_pending_count` is rewritten to `0`, which on any
reachable state — where it equals the queue length — is no change). -/
theorem empty_flush_noop (opts : BatchIngestOptions) (ss : SyncState)
    (sa : AsyncState) (hs : ss.queue = []) (hp : ss.pending = 0)
    (ha : sa.buffer = []) :
    syncFlushBatch opts ss = ss
  ∧ syncFlushRemaining ss = ss
  ∧ (syncFlushBatch opts ss).delivered = ss.delivered
  ∧ (syncFlushRemaining ss).delivered = ss.delivered
  ∧ asyncFlushBatch sa = sa
  ∧ asyncFlushRemaining sa = sa := by
  have h1 : syncFlushBatch opts ss = ss := by
    unfold syncFlushBatch; simp [hs]
  have h2 : syncFlushRemaining ss = ss := by
    unfold syncFlushRemaining
    cases ss
    simp_all
  have h3 : asyncFlushBatch sa = sa := by
    unfold asyncFlushBatch; simp [ha]
  have h4 : asyncFlushRemaining sa = sa := by
    unfold asyncFlushRemaining
    cases sa
    simp_all
  exact ⟨h1, h2, by rw [h1], by rw [h2], h3, h4⟩

/-- C10 witness: the fresh states of both processors. -/
theorem empty_flush_noop_witness :
    syncFlushBatch optsA syncInit = syncInit
  ∧ syncFlushRemaining syncInit = syncInit
  ∧ asyncFlushBatch asyncInit = asyncInit
  ∧ asyncFlushRemaining asyncInit = asyncInit := by
  have h := empty_flush_noop optsA syncInit asyncInit rfl rfl rfl
  exact ⟨h.1, h.2.1, h.2.2.2.2.1, h.2.2.2.2.2⟩

/-! Helper lemmas about the retry dispatcher. -/

theorem retryGo_error_index (opts : BatchIngestOptions) (f : Nat → SubmitOutcome)
    (i : Nat) :
    ∀ fuel attempt e, (retryGo opts f i fuel attempt).error = some e →
      e.event_index = (i : Int) := by
  intro fuel
  induction fuel with
  | zero => intro attempt e h; simp [retryGo] at h
  | succ fuel ih =>
    intro attempt e h
    cases hf : f attempt with
    | success => simp [retryGo, hf] at h
    | failure msg st =>
      by_cases hp : isPermanent st
      · simp only [retryGo, hf, hp, if_true] at h
        obtain rfl := Option.some.inj h
        rfl
      · by_cases hlt : attempt < opts.retry_attempts
        · simp only [retryGo, hf, hp, Bool.false_eq_true, if_false,
            if_pos hlt] at h
          exact ih (attempt + 1) e h
        · simp only [retryGo, hf, hp, Bool.false_eq_true, if_false,
            if_neg hlt] at h
          obtain rfl := Option.some.inj h
          rfl

theorem retryGo_success_or_error (opts : BatchIngestOptions)
    (f : Nat → SubmitOutcome) (i : Nat) :
    ∀ fuel attempt, attempt ≤ opts.retry_attempts →
      attempt + fuel = opts.retry_attempts + 1 →
      (retryGo opts f i fuel attempt).success = true
      ∨ (retryGo opts f i fuel attempt).error.isSome := by
  intro fuel
  induction fuel with
  | zero => intro attempt hle h; omega
  | succ fuel ih =>
    intro attempt hle h
    cases hf : f attempt with
    | success => left; simp [retryGo, hf]
    | failure msg st =>
      by_cases hp : isPermanent st
      · right; simp [retryGo, hf, hp]
      · by_cases hlt : attempt < opts.retry_attempts
        · have hrec := ih (attempt + 1) (by omega) (by omega)
          simp only [retryGo, hf, hp, Bool.false_eq_true, if_false, if_pos hlt]
          exact hrec
        · right; simp [retryGo, hf, hp, hlt]

theorem retryGo_attempts_le (opts : BatchIngestOptions)
    (f : Nat → SubmitOutcome) (i : Nat) :
    ∀ fuel attempt, (retryGo opts f i fuel attempt).attempts ≤ attempt + fuel := by
  intro fuel
  induction fuel with
  | zero => intro attempt; simp [retryGo]
  | succ fuel ih =>
    intro attempt
    cases hf : f attempt with
    | success => simp [retryGo, hf]
    | failure msg st =>
      by_cases hp : isPermanent st
      · simp [retryGo, hf, hp]
      · by_cases hlt : attempt < opts.retry_attempts
        · have hrec := ih (attempt + 1)
          simp only [retryGo, hf, hp, Bool.false_eq_true, if_false, if_pos hlt]
          omega
        · simp [retryGo, hf, hp, hlt]

theorem taskResults_length (opts : BatchIngestOptions) :
    ∀ (es : List EventSpec) (start : Nat),
      (taskResults opts es start).length = es.length := by
  intro es
  induction es with
  | nil => intro start; simp [taskResults]
  | cons e0 rest ih => intro start; simp [taskResults, ih]

theorem taskResults_append (opts : BatchIngestOptions) (l1 l2 : List EventSpec) :
    ∀ start, taskResults opts (l1 ++ l2) start
      = taskResults opts l1 start ++ taskResults opts l2 (start + l1.length) := by
  induction l1 with
  | nil => intro start; simp [taskResults]
  | cons e0 rest ih =>
    intro start
    simp only [List.cons_append, taskResults, List.length_cons, List.append_eq]
    rw [ih (start + 1)]
    have harith : start + 1 + rest.length = start + (rest.length + 1) := by omega
    rw [harith]

theorem taskError_none_iff_success (opts : BatchIngestOptions) (i : Nat)
    (e0 : EventSpec) :
    taskError (taskResult opts i e0) = none
      ↔ taskSuccess (taskResult opts i e0) = true := by
  cases e0 with
  | crash m => simp [taskResult, taskError, taskSuccess]
  | normal f =>
    simp only [taskResult, taskError, taskSuccess]
    by_cases hs : (ingestWithRetry opts f i).success = true
    · simp [hs]
    · have hor := retryGo_success_or_error opts f i (opts.retry_attempts + 1) 0
        (by omega) (by omega)
      rcases hor with h | h
      · exact absurd h hs
      · simp only [ingestWithRetry] at hs ⊢
        simp [hs]
        intro hnone
        rw [hnone] at h
        simp at h

theorem succ_add_errors (rs : List TaskResult)
    (h : ∀ r ∈ rs, (taskError r = none ↔ taskSuccess r = true)) :
    rs.countP taskSuccess + (rs.filterMap taskError).length = rs.length := by
  induction rs with
  | nil => simp
  | cons r rest ih =>
    have hr := h r (by simp)
    have hrest := ih (fun x hx => h x (by simp [hx]))
    rw [List.countP_cons, List.length_cons]
    rcases ho : taskError r with _ | err
    · have hs : taskSuccess r = true := hr.mp ho
      rw [List.filterMap_cons_none ho]
      simp only [hs, if_pos]
      omega
    · have hs : taskSuccess r = false := by
        cases htb : taskSuccess r
        · rfl
        · have hcontra := hr.mpr htb
          rw [ho] at hcontra
          exact Option.noConfusion hcontra
      rw [List.filterMap_cons_some ho]
      simp only [hs, Bool.false_eq_true, if_false, List.length_cons]
      omega

theorem mem_taskResults (opts : BatchIngestOptions) :
    ∀ (es : List EventSpec) (start : Nat) (r : TaskResult),
      r ∈ taskResults opts es start → ∃ i e0, r = taskResult opts i e0 := by
  intro es
  induction es with
  | nil => intro start r h; simp [taskResults] at h
  | cons e0 rest ih =>
    intro start r h
    rcases (List.mem_cons).mp h with rfl | h2
    · exact ⟨start, e0, rfl⟩
    · exact ih (start + 1) r h2

theorem collectErrors_index (opts : BatchIngestOptions) :
    ∀ (es : List EventSpec) (start : Nat) (e : BatchIngestError),
      e ∈ collectErrors (taskResults opts es start) →
      e.event_index = -1
      ∨ ∃ j, j < es.length ∧ e.event_index = ((start + j : Nat) : Int) := by
  intro es
  induction es with
  | nil => intro start e h; simp [taskResults, collectErrors] at h
  | cons e0 rest ih =>
    intro start e h
    simp only [taskResults, collectErrors, List.filterMap_cons] at h
    cases ho : taskError (taskResult opts start e0) with
    | none =>
      rw [ho] at h
      rcases ih (start + 1) e h with h1 | ⟨j, hj, he⟩
      · exact Or.inl h1
      · refine Or.inr ⟨j + 1, by simpa using Nat.succ_lt_succ hj, ?_⟩
        rw [he]
        congr 1
        omega
    | some err =>
      rw [ho] at h
      rcases (List.mem_cons).mp h with he0 | h2
      · rw [he0]
        cases e0 with
        | crash m =>
          simp only [taskResult, taskError] at ho
          obtain rfl := Option.some.inj ho
          exact Or.inl rfl
        | normal f =>
          simp only [taskResult, taskError] at ho
          by_cases hs : (ingestWithRetry opts f start).success = true
          · simp [hs] at ho
          · rw [if_neg hs] at ho
            have hidx := retryGo_error_index opts f start
              (opts.retry_attempts + 1) 0 err ho
            exact Or.inr ⟨0, by simp, by simpa using hidx⟩
      · rcases ih (start + 1) e h2 with h1 | ⟨j, hj, he⟩
        · exact Or.inl h1
        · refine Or.inr ⟨j + 1, by simpa using Nat.succ_lt_succ hj, ?_⟩
          rw [he]
          congr 1
          omega

theorem ingestWithRetry_perm (opts : BatchIngestOptions)
    (f : Nat → SubmitOutcome) (i : Nat) (msg : String) (c : Nat)
    (hf : f 0 = SubmitOutcome.failure msg (some c))
    (hp : isPermanent (some c) = true) :
    ingestWithRetry opts f i
      = ⟨false, some ⟨(i : Int), msg, some c, false⟩, 1, []⟩ := by
  unfold ingestWithRetry
  simp [retryGo, hf, hp]

theorem isPermanent_transient_false (st : Option Nat)
    (h : st = none ∨ st = some 429 ∨ ∃ c, st = some c ∧ 500 ≤ c) :
    isPermanent st = false := by
  rcases h with rfl | rfl | ⟨c, rfl, hc⟩
  · rfl
  · simp [isPermanent]
  · have hn : ¬ (c < 500) := by omega
    simp [isPermanent, hn]

theorem retryGo_transient (opts : BatchIngestOptions) (f : Nat → SubmitOutcome)
    (i : Nat) (m : Nat → String) (st : Nat → Option Nat)
    (hf : ∀ k, f k = SubmitOutcome.failure (m k) (st k))
    (hp : ∀ k, isPermanent (st k) = false) :
    ∀ fuel attempt, attempt ≤ opts.retry_attempts →
      attempt + fuel = opts.retry_attempts + 1 →
      retryGo opts f i fuel attempt
        = ⟨false,
           some ⟨(i : Int), m opts.retry_attempts, st opts.retry_attempts,
                 decide (0 < opts.retry_attempts)⟩,
           opts.retry_attempts + 1,
           (List.range (opts.retry_attempts - attempt)).map
             (fun k => opts.retry_delay * 2 ^ (attempt + k))⟩ := by
  intro fuel
  induction fuel with
  | zero => intro attempt hle h; omega
  | succ fuel ih =>
    intro attempt hle h
    by_cases hlt : attempt < opts.retry_attempts
    · have ihh := ih (attempt + 1) (by omega) (by omega)
      have hw : (List.range (opts.retry_attempts - attempt)).map
            (fun k => opts.retry_delay * 2 ^ (attempt + k))
          = opts.retry_delay * 2 ^ attempt
            :: (List.range (opts.retry_attempts - (attempt + 1))).map
              (fun k => opts.retry_delay * 2 ^ (attempt + 1 + k)) := by
        have hr : opts.retry_attempts - attempt
            = (opts.retry_attempts - (attempt + 1)) + 1 := by omega
        have hfun : ((fun k => opts.retry_delay * 2 ^ (attempt + k)) ∘ Nat.succ)
            = fun k => opts.retry_delay * 2 ^ (attempt + 1 + k) := by
          funext k
          simp only [Function.comp_apply]
          have harith : attempt + (k + 1) = attempt + 1 + k := by omega
          rw [Nat.succ_eq_add_one, harith]
        rw [hr, List.range_succ_eq_map, List.map_cons, List.map_map, hfun]
        simp
      simp only [retryGo, hf attempt, hp attempt, Bool.false_eq_true, if_false,
        if_pos hlt, ihh, hw]
    · have hae : attempt = opts.retry_attempts := by omega
      subst hae
      simp [retryGo, hf, hp, hlt]

theorem ingestWithRetry_transient (opts : BatchIngestOptions)
    (f : Nat → SubmitOutcome) (i : Nat) (m : Nat → String) (st : Nat → Option Nat)
    (hf : ∀ k, f k = SubmitOutcome.failure (m k) (st k))
    (hp : ∀ k, isPermanent (st k) = false) :
    ingestWithRetry opts f i
      = ⟨false,
         some ⟨(i : Int), m opts.retry_attempts, st opts.retry_attempts,
               decide (0 < opts.retry_attempts)⟩,
         opts.retry_attempts + 1,
         (List.range opts.retry_attempts).map
           (fun k => opts.retry_delay * 2 ^ k)⟩ := by
  have h := retryGo_transient opts f i m st hf hp (opts.retry_attempts + 1) 0
    (by omega) (by omega)
  unfold ingestWithRetry
  rw [h]
  simp

/-- C4: an event whose submission fails with a 4xx status other than 429 is
permanent: `ingest_with_retry` stops after exactly one attempt with no
back-off wait, its `last_error` carries `retried = false`, and in any batch
containing that event the result's `errors` hold exactly one record for its
index. -/
theorem permanent_4xx_single_failure (opts : BatchIngestOptions)
    (l1 l2 : List EventSpec) (f : Nat → SubmitOutcome) (msg : String) (c : Nat)
    (hf : f 0 = SubmitOutcome.failure msg (some c))
    (h1 : 400 ≤ c) (h2 : c < 500) (h3 : c ≠ 429) :
    ingestWithRetry opts f l1.length
      = ⟨false, some ⟨(l1.length : Int), msg, some c, false⟩, 1, []⟩
  ∧ (ingestEventsWithResult opts (l1 ++ EventSpec.normal f :: l2)).errors.filter
      (fun e => e.event_index == (l1.length : Int))
    = [⟨(l1.length : Int), msg, some c, false⟩] := by
  have hp : isPermanent (some c) = true := by
    simp only [isPermanent]
    have hc0 : c ≠ 0 := by omega
    simp [hc0, h1, h2, h3]
  have hperm := ingestWithRetry_perm opts f l1.length msg c hf hp
  refine ⟨hperm, ?_⟩
  simp only [ingestEventsWithResult]
  rw [taskResults_append]
  simp only [collectErrors, List.filterMap_append, List.filter_append,
    Nat.zero_add]
  have hseg1 : (List.filterMap taskError (taskResults opts l1 0)).filter
      (fun e => e.event_index == (l1.length : Int)) = [] := by
    rw [List.filter_eq_nil_iff]
    intro e he
    rcases collectErrors_index opts l1 0 e he with hm | ⟨j, hj, hje⟩
    · simp [hm]
    · simp only [hje, Nat.zero_add, beq_iff_eq, Int.natCast_inj]
      omega
  have hmid : taskError (taskResult opts l1.length (EventSpec.normal f))
      = some ⟨(l1.length : Int), msg, some c, false⟩ := by
    simp [taskResult, taskError, hperm]
  have hseg3 : (List.filterMap taskError
        (taskResults opts l2 (l1.length + 1))).filter
      (fun e => e.event_index == (l1.length : Int)) = [] := by
    rw [List.filter_eq_nil_iff]
    intro e he
    rcases collectErrors_index opts l2 (l1.length + 1) e he with hm | ⟨j, hj, hje⟩
    · simp [hm]
    · simp only [hje, beq_iff_eq, Int.natCast_inj]
      omega
  simp only [taskResults, List.filterMap_cons, hmid]
  rw [hseg1]
  simp only [List.filter_cons, beq_self_eq_true, if_pos]
  rw [hseg3]
  simp

/-- C4 witness: a single-event batch whose submissions always return 400. -/
theorem permanent_4xx_single_failure_witness :
    ingestWithRetry optsA (fun _ => SubmitOutcome.failure "bad" (some 400)) 0
      = ⟨false, some ⟨0, "bad", some 400, false⟩, 1, []⟩
  ∧ (ingestEventsWithResult optsA
      [EventSpec.normal (fun _ => SubmitOutcome.failure "bad" (some 400))]).errors.filter
      (fun e => e.event_index == (0 : Int))
    = [⟨0, "bad", some 400, false⟩] := by
  have h := permanent_4xx_single_failure optsA [] []
    (fun _ => SubmitOutcome.failure "bad" (some 400)) "bad" 400
    rfl (by omega) (by omega) (by omega)
  simpa using h

/-- C5: an event whose submissions always fail transiently (server error,
429, or no status code) is retried `retry_attempts` additional times — the
back-off waits are exactly `retry_delay * 2^k` for 0-based attempt
`k = 0, …, retry_attempts - 1`, `1 + retry_attempts` attempts are made in
total (and no outcome function ever causes more), and the sole failure record
carries `retried = true` exactly when `retry_attempts ≥ 1`. -/
theorem transient_retry_backoff (opts : BatchIngestOptions)
    (f : Nat → SubmitOutcome) (i : Nat) (m : Nat → String)
    (st : Nat → Option Nat)
    (hf : ∀ k, f k = SubmitOutcome.failure (m k) (st k))
    (htr : ∀ k, st k = none ∨ st k = some 429 ∨ ∃ c, st k = some c ∧ 500 ≤ c) :
    ingestWithRetry opts f i
      = ⟨false,
         some ⟨(i : Int), m opts.retry_attempts, st opts.retry_attempts,
               decide (0 < opts.retry_attempts)⟩,
         opts.retry_attempts + 1,
         (List.range opts.retry_attempts).map
           (fun k => opts.retry_delay * 2 ^ k)⟩
  ∧ (∀ g : Nat → SubmitOutcome,
      (ingestWithRetry opts g i).attempts ≤ opts.retry_attempts + 1) := by
  refine ⟨?_, ?_⟩
  · exact ingestWithRetry_transient opts f i m st hf
      (fun k => isPermanent_transient_false (st k) (htr k))
  · intro g
    have h := retryGo_attempts_le opts g i (opts.retry_attempts + 1) 0
    simpa [ingestWithRetry] using h

/-- C5 witness: submissions that always return 500, with `retry_attempts = 3`
and `retry_delay = 1`: four attempts, waits `1, 2, 4`, `retried = true`. -/
theorem transient_retry_backoff_witness :
    ingestWithRetry optsA (fun _ => SubmitOutcome.failure "boom" (some 500)) 0
      = ⟨false, some ⟨0, "boom", some 500, true⟩, 4, [1, 2, 4]⟩ := by
  have h := (transient_retry_backoff optsA
    (fun _ => SubmitOutcome.failure "boom" (some 500)) 0
    (fun _ => "boom") (fun _ => some 500)
    (fun _ => rfl)
    (fun _ => Or.inr (Or.inr ⟨500, rfl, by omega⟩))).1
  rw [h]
  norm_num [optsA, List.range_succ]

/-- C8: a per-event task that raises an unexpected internal exception is
caught and converted into a failure record with `event_index = -1`, and the
other events of the batch are still processed and reported normally: the
result errors and success count decompose into the untouched contributions of
the events before and after the crashing one (dispatch itself is a total
function — it never raises). -/
theorem crash_isolated (opts : BatchIngestOptions) (l1 l2 : List EventSpec)
    (m : String) :
    (ingestEventsWithResult opts (l1 ++ EventSpec.crash m :: l2)).errors
      = collectErrors (taskResults opts l1 0)
        ++ ⟨-1, m, none, false⟩
          :: collectErrors (taskResults opts l2 (l1.length + 1))
  ∧ (ingestEventsWithResult opts (l1 ++ EventSpec.crash m :: l2)).success_count
      = (taskResults opts l1 0).countP taskSuccess
        + (taskResults opts l2 (l1.length + 1)).countP taskSuccess := by
  simp only [ingestEventsWithResult, collectErrors]
  rw [taskResults_append]
  constructor
  · rw [List.filterMap_append]
    simp [taskResults, taskResult, taskError, Nat.zero_add]
  · rw [List.countP_append]
    have hraised : taskSuccess (TaskResult.raised m) = false := rfl
    simp [taskResults, taskResult, List.countP_cons, Nat.zero_add, hraised]

/-- C9: every `BatchIngestResult` built by `_ingest_events_with_result`
satisfies `success_count + failure_count = total_count`, with `total_count`
the number of input events and `failure_count` the length of `errors` — for
any input list and any submission outcomes, crashes included. -/
theorem result_count_invariant (opts : BatchIngestOptions)
    (es : List EventSpec) :
    (ingestEventsWithResult opts es).success_count
        + (ingestEventsWithResult opts es).failure_count
      = (ingestEventsWithResult opts es).total_count
  ∧ (ingestEventsWithResult opts es).total_count = es.length
  ∧ (ingestEventsWithResult opts es).failure_count
      = (ingestEventsWithResult opts es).errors.length := by
  have hiff : ∀ r ∈ taskResults opts es 0,
      (taskError r = none ↔ taskSuccess r = true) := by
    intro r hr
    obtain ⟨i, e0, rfl⟩ := mem_taskResults opts es 0 r hr
    exact taskError_none_iff_success opts i e0
  have hsum := succ_add_errors (taskResults opts es 0) hiff
  have hlen := taskResults_length opts es 0
  refine ⟨?_, rfl, rfl⟩
  simp only [ingestEventsWithResult, collectErrors]
  rw [hsum, hlen]

end QuickSearch
